import Mathlib

/-!
Verification development for the neurplexd ocular-motility differential tool
(`src/js/script.js`).  The file shallowly embeds the hand-rolled JavaScript
`Set` prototype, the knowledge-base sets, the localization resolver and the
differential ranker from the checkbox click handler, and proves the spec's
claims about them.
-/

/-- A JavaScript value as stored in the hand-rolled `Set`.  The sets in the
source hold strings and (in principle) numbers; element identity is the
value's string conversion, because the `Set` stores values in a plain
JavaScript object whose property names are always strings. -/
inductive JSVal where
  | str : String → JSVal
  | num : Int → JSVal
deriving DecidableEq, Repr

/-- The string conversion that a JavaScript object applies to a property
name: this models the implicit `toString()` in `this.data[this._makeKey(key)]`
(`_makeKey` returns its argument unchanged; the coercion happens at the
property access). -/
def JSVal.toKey : JSVal → String
  | .str s => s
  | .num n => toString n

/-- The backing store of a `Set`: a JavaScript object, modelled as an
association list from string property names to stored values, in insertion
order (JavaScript enumerates non-index string keys in insertion order). -/
structure JSSet where
  data : List (String × JSVal)
deriving DecidableEq, Repr

namespace JSSet

/-- `new Set([])` / the empty object `{}`. -/
def empty : JSSet := ⟨[]⟩

/-- Assignment `obj[k] = v` on a JavaScript object: overwrite the value in
place if the property exists (its enumeration position is kept), otherwise
append the new property at the end. -/
def storeKey : List (String × JSVal) → String → JSVal → List (String × JSVal)
  | [], k, v => [(k, v)]
  | (k', v') :: rest, k, v =>
      if k' = k then (k, v) :: rest else (k', v') :: storeKey rest k v

/-- `Set.prototype._add(key, val)` with an explicit string key:
`this.data[this._makeKey(key)] = val`. -/
def addPair (s : JSSet) (k : String) (v : JSVal) : JSSet :=
  ⟨storeKey s.data k v⟩

/-- `Set.prototype._add(key)` on a plain value: the stored value is the value
itself and the property name is its string conversion. -/
def addVal (s : JSSet) (v : JSVal) : JSSet :=
  s.addPair v.toKey v

/-- `s.add(otherSet)`: `otherSet.each(function(val, key) { self._add(key, val) })`,
re-adding every `(key, value)` pair of `t` into `s` in enumeration order. -/
def addSet (s t : JSSet) : JSSet :=
  t.data.foldl (fun a p => a.addPair p.1 p.2) s

/-- Property-name membership: `hasOwnProperty(this.data, k)`. -/
def hasKey (s : JSSet) (k : String) : Bool :=
  s.data.any (fun p => p.1 = k)

/-- `Set.prototype.has(key)`: convert to the property name, then test. -/
def has (s : JSSet) (v : JSVal) : Bool :=
  s.hasKey v.toKey

/-- `Set.prototype.isEmpty()`: the `for … in` loop finds no own property. -/
def isEmpty (s : JSSet) : Bool :=
  s.data.isEmpty

/-- `Set.prototype.keys()`: the stored (original) values, in enumeration
order. -/
def keys (s : JSSet) : List JSVal :=
  s.data.map (fun p => p.2)

/-- `Set.prototype.clear()` empties the receiver; in this value-level model
the (returned) receiver is simply the empty set. -/
def clear (_ : JSSet) : JSSet := empty

/-- `Set.prototype.union(t)`: `makeNew(this)` (a fresh set re-adding all of
`this`) followed by `add(t)`. -/
def union (s t : JSSet) : JSSet :=
  (empty.addSet s).addSet t

/-- `Set.prototype.intersection(t)`: iterate `this`, `_add`-ing the pairs
whose property name `t` has, into a fresh set. -/
def intersection (s t : JSSet) : JSSet :=
  s.data.foldl (fun a p => if t.hasKey p.1 then a.addPair p.1 p.2 else a) empty

/-- `Set.prototype.difference(t)`: iterate `this`, `_add`-ing the pairs whose
property name `t` does not have, into a fresh set. -/
def difference (s t : JSSet) : JSSet :=
  s.data.foldl (fun a p => if t.hasKey p.1 then a else a.addPair p.1 p.2) empty

/-- `Set.prototype.isSubset(t)`: `eachReturn` returns false iff the callback
returned false on some element, i.e. iff some property name of `this` is
missing from `t`. -/
def isSubset (s t : JSSet) : Bool :=
  s.data.all (fun p => t.hasKey p.1)

/-- `Set.prototype.isSuperset(t)`: every property name of `t` is in `this`. -/
def isSuperset (s t : JSSet) : Bool :=
  t.data.all (fun p => s.hasKey p.1)

/-- `Set.prototype.equals(t)`: mutual subset. -/
def equals (s t : JSSet) : Bool :=
  s.isSubset t && s.isSuperset t

/-- `new Set([x, y, …])` / `new Set(x, y, …)` on a list of strings: each
element is `_add`-ed in order. -/
def ofStrings (l : List String) : JSSet :=
  l.foldl (fun a x => a.addVal (.str x)) empty

end JSSet

/-- How many entries of a backing store carry a given property name (a
genuine JavaScript object always has 0 or 1). -/
def countKey (d : List (String × JSVal)) (k : String) : Nat :=
  d.countP (fun p => p.1 = k)

/-- The value stored under a property name, if any. -/
def lookupKey (d : List (String × JSVal)) (k : String) : Option JSVal :=
  (d.find? (fun p => p.1 = k)).map Prod.snd

/-! ## The knowledge base (`script.js` lines 340–373) -/

def all : JSSet := JSSet.ofStrings ["R MR", "L MR", "R SR", "L SR", "R IR", "L IR", "R LR", "L LR", "R SO", "L SO", "R IO", "L IO", "R MLF", "L MLF"]
def horizontal_LZ : JSSet := JSSet.ofStrings ["R MR", "R LR", "L MR", "L LR", "L MLF", "R MLF"]
def diagonal_LZ : JSSet := JSSet.ofStrings ["R IO", "L IO", "R SR", "L SR", "R IR", "L IR"]
def vertical_LZ : JSSet := JSSet.ofStrings ["L IO", "R IO", "L SO", "R SO", "L IR", "R IR", "L SR", "R SR"]
def leftLG_LZ : JSSet := JSSet.ofStrings ["L LR", "R MR", "R IO", "R SO", "L SR", "L IR", "R MLF"]
def rightLG_LZ : JSSet := JSSet.ofStrings ["R LR", "L MR", "L IO", "L SO", "R SR", "R IR", "L MLF"]
def lefthyper_LZ : JSSet := JSSet.ofStrings ["L SO", "L IR", "R SR", "R IO", "L MLF"]
def righthyper_LZ : JSSet := JSSet.ofStrings ["R SO", "R IR", "L SR", "L IO", "R MLF"]
def nohyper_LZ : JSSet := JSSet.ofStrings ["L LR", "R LR", "L MR", "R MR", "L MLF", "R MLF"]
def lefttilt_LZ : JSSet := JSSet.ofStrings ["L SR", "L SO", "R IR", "R IO"]
def righttilt_LZ : JSSet := JSSet.ofStrings ["R SR", "R SO", "L IR", "L IO"]
def rightlarger_LZ : JSSet := JSSet.ofStrings ["R parasympathetic", "L sympathetic"]
def leftlarger_LZ : JSSet := JSSet.ofStrings ["L parasympathetic", "R sympathetic"]
def dark_LZ : JSSet := JSSet.ofStrings ["L sympathetic", "R sympathetic"]
def light_LZ : JSSet := JSSet.ofStrings ["R parasympathetic", "L parasympathetic"]

/-- The diagnosis names, in the insertion order of `ddx_list`. -/
def ddxNames : List String :=
  ["R INO", "L INO", "R CN III Palsy", "L CN III Palsy", "R CN IV Palsy",
   "L CN IV Palsy", "R CN VI Palsy", "L CN VI Palsy", "Intracranial Aneurysm",
   "Cavernous Sinus", "Horner",
   "Midbrain at the Level of the Superior Cerebellar Peduncle", "Dorsal Pons",
   "Base of the Midbrain", "Increased ICP", "Tegmentum of the Midbrain"]

def ddx_list : JSSet := JSSet.ofStrings ddxNames

def RINO : JSSet := JSSet.ofStrings ["R MLF", "nystagmus", "impaired_adduction"]
def LINO : JSSet := JSSet.ofStrings ["L MLF", "nystagmus", "impaired_adduction"]
def RCNIIIPalsy : JSSet := JSSet.ofStrings ["ptosis", "R MR", "R IO", "R SR", "R IR", "R parasympathetic", "eye_pain", "convergence_impaired", "impaired_adduction"]
def LCNIIIPalsy : JSSet := JSSet.ofStrings ["ptosis", "L MR", "L IO", "L SR", "L IR", "L parasympathetic", "eye_pain", "convergence_impaired", "impaired_adduction"]
def RCNIVPalsy : JSSet := JSSet.ofStrings ["eye_pain", "R SO"]
def LCNIVPalsy : JSSet := JSSet.ofStrings ["eye_pain", "L SO"]
def RCNVIPalsy : JSSet := JSSet.ofStrings ["eye_pain", "R LR"]
def LCNVIPalsy : JSSet := JSSet.ofStrings ["eye_pain", "L LR"]
def IncreasedICP : JSSet := JSSet.ofStrings ["R LR", "L LR", "headache", "L parasympathetic", "R parasympathetic"]
def IntracranialAneurysm : JSSet := JSSet.ofStrings ["ptosis", "R MR", "R IO", "R SR", "R IR", "L MR", "L IO", "L SR", "L IR", "R parasympathetic", "convergence_impaired", "impaired_adduction", "headache"]
def CavernousSinus : JSSet := JSSet.ofStrings ["R sympathetic", "L sympathetic", "R MR", "R IO", "R SR", "R IR", "L MR", "L IO", "L SR", "L IR", "L SO", "R SO", "L LR", "R LR", "facial_numbness", "ptosis", "eye_pain"]
def MidbrainattheLeveloftheSuperiorCerebellarPeduncle : JSSet := JSSet.ofStrings ["ptosis", "R MR", "R IO", "R SR", "R IR", "R parasympathetic", "ipsilateral_ataxia", "nystagmus", "R MLF", "L MLF", "L MR", "L IO", "L SR", "L IR", "L parasympathetic", "impaired_adduction"]
def BaseoftheMidbrain : JSSet := JSSet.ofStrings ["R MR", "R IO", "R SR", "R IR", "L MR", "L IO", "L SR", "L IR", "contralateral_hemiparesis"]
def Horner : JSSet := JSSet.ofStrings ["R sympathetic", "L sympathetic", "ptosis"]
def DorsalPons : JSSet := JSSet.ofStrings ["L LR", "R LR", "L MLF", "R MLF", "ipsilateral_hemiface_weakness", "impaired_adduction"]
def TegmentumoftheMidbrain : JSSet := JSSet.ofStrings ["R MR", "R IO", "R SR", "R IR", "L MR", "L IO", "L SR", "L IR", "R parasympathetic", "ipsilateral_ataxia", "contralateral_ataxia", "contralateral_hemiparesis", "nystagmus"]

/-- The zone checkbox identifiers: `eval(id + "_LZ")` resolves an id to the
variable of that name, so the valid ids are the `_LZ` variable names without
the suffix. -/
def zoneNames : List String :=
  ["horizontal", "diagonal", "vertical", "leftLG", "rightLG", "lefthyper",
   "righthyper", "nohyper", "lefttilt", "righttilt", "rightlarger",
   "leftlarger", "dark", "light"]

/-- `eval(($(this).attr("id")) + "_LZ")` over the closed set of zone
variables.  An id outside `zoneNames` would be a JavaScript `ReferenceError`;
it is mapped to the empty set here and excluded by hypothesis wherever it
matters. -/
def zoneLookup : String → JSSet
  | "horizontal" => horizontal_LZ
  | "diagonal" => diagonal_LZ
  | "vertical" => vertical_LZ
  | "leftLG" => leftLG_LZ
  | "rightLG" => rightLG_LZ
  | "lefthyper" => lefthyper_LZ
  | "righthyper" => righthyper_LZ
  | "nohyper" => nohyper_LZ
  | "lefttilt" => lefttilt_LZ
  | "righttilt" => righttilt_LZ
  | "rightlarger" => rightlarger_LZ
  | "leftlarger" => leftlarger_LZ
  | "dark" => dark_LZ
  | "light" => light_LZ
  | _ => JSSet.empty

/-- `eval(name.replace(/\s+/g, ""))` over the closed set of diagnosis
variables: the composite of the whitespace stripping and the variable
lookup, keyed by the diagnosis name as it appears in `ddx_list`.  A name
outside `ddxNames` would be a JavaScript `ReferenceError`; it is mapped to
the empty set here. -/
def dxFeatures : String → JSSet
  | "R INO" => RINO
  | "L INO" => LINO
  | "R CN III Palsy" => RCNIIIPalsy
  | "L CN III Palsy" => LCNIIIPalsy
  | "R CN IV Palsy" => RCNIVPalsy
  | "L CN IV Palsy" => LCNIVPalsy
  | "R CN VI Palsy" => RCNVIPalsy
  | "L CN VI Palsy" => LCNVIPalsy
  | "Intracranial Aneurysm" => IntracranialAneurysm
  | "Cavernous Sinus" => CavernousSinus
  | "Horner" => Horner
  | "Midbrain at the Level of the Superior Cerebellar Peduncle" => MidbrainattheLeveloftheSuperiorCerebellarPeduncle
  | "Dorsal Pons" => DorsalPons
  | "Base of the Midbrain" => BaseoftheMidbrain
  | "Increased ICP" => IncreasedICP
  | "Tegmentum of the Midbrain" => TegmentumoftheMidbrain
  | _ => JSSet.empty

/-! ## The localization resolver (`script.js` lines 398–408) -/

/-- The zone-checkbox fold of the click handler: `finalSet` starts as
`new Set([])`; for each checked zone id, if `finalSet` is *currently empty*
it is replaced by `finalSet.union(curSet)`, otherwise by
`finalSet.intersection(curSet)`. -/
def resolveLocalization (ids : List String) : JSSet :=
  ids.foldl
    (fun finalSet id =>
      let curSet := zoneLookup id
      if finalSet.isEmpty then finalSet.union curSet
      else finalSet.intersection curSet)
    JSSet.empty

/-- Modelled from the spec (§4.3), for refinement comparison with
`resolveLocalization`: the explicit first-element-vs-rest fold — seed the
accumulator with the first identifier's zone set and intersect with each
subsequent identifier's zone set. -/
def specResolve : List String → JSSet
  | [] => JSSet.empty
  | i :: rest => rest.foldl (fun a j => a.intersection (zoneLookup j)) (zoneLookup i)

/-! ## The differential ranker (`script.js` lines 436–576) -/

/-- One-symptom candidate scan (`curRunningSet`, lines 443–465): for each
diagnosis in `ddx_list` (in insertion order), include its name if its feature
set contains the symptom (`overlapLocal`) and its intersection with the
localization set `finalSet` (`overlapDDx`) is non-empty. -/
def candidatesForSymptom (finalSet : JSSet) (cur_symptom : String) : JSSet :=
  ddxNames.foldl
    (fun curRunningSet curDxSpace =>
      let curDxSet := dxFeatures curDxSpace
      let overlapLocal := curDxSet.has (.str cur_symptom)
      let overlapDDx := curDxSet.intersection finalSet
      if overlapLocal && overlapDDx.isEmpty == false
      then curRunningSet.addVal (.str curDxSpace)
      else curRunningSet)
    JSSet.empty

/-- The symptom loop's accumulation of `finalDx` (lines 467–469): when the
per-symptom candidate set differs from the accumulator, union in the new
candidates. -/
def finalDxOf (finalSet : JSSet) (symptoms : List String) : JSSet :=
  symptoms.foldl
    (fun finalDx s =>
      let curRunningSet := candidatesForSymptom finalSet s
      if finalDx.equals curRunningSet == false
      then finalDx.union (curRunningSet.difference finalDx)
      else finalDx)
    JSSet.empty

/-- `noset` (lines 435, 442): the set of selected symptom ids, accumulated by
`noset.add(cur_symptom)` in the same symptom loop. -/
def nosetOf (symptoms : List String) : JSSet :=
  symptoms.foldl (fun noset s => noset.addVal (.str s)) JSSet.empty

/-- The mutable locals of the ranking scan (lines 476–486). -/
structure RankState where
  topddxcount : Nat
  topddx : String
  topSet : JSSet
  seconddxcount : Nat
  seconddx : String
  secondSet : JSSet
  secondMultipleSet : JSSet
  topMultipleSet : JSSet
deriving DecidableEq, Repr

/-- The scan locals before the first candidate. -/
def initRank : RankState :=
  ⟨0, "", JSSet.empty, 0, "", JSSet.empty, JSSet.empty, JSSet.empty⟩

/-- One diagnosis's overlap count with the evidence set: `inter.each`
increments `testcount` once per enumerated property of
`item4set.intersection(finalSet)`. -/
def scoreOf (item4 : String) (finalSet : JSSet) : Nat :=
  ((dxFeatures item4).intersection finalSet).data.length

/-- One iteration of the ranking scan (lines 490–548), `finalSet` being the
already-augmented evidence set. -/
def rankStep (finalSet : JSSet) (st : RankState) (item4 : String) : RankState :=
  let inter := (dxFeatures item4).intersection finalSet
  let testcount := inter.data.length
  if st.topddxcount == 0 && st.seconddxcount == 0 then
    { st with
      topddxcount := testcount, topddx := item4, topSet := inter,
      seconddxcount := testcount, seconddx := item4, secondSet := inter }
  else if testcount > st.topddxcount then
    -- `secondMultipleSet.clear()` then `topMultipleSet.union(secondMultipleSet)`
    -- then `topMultipleSet.clear()`
    { st with
      seconddxcount := st.topddxcount, seconddx := st.topddx,
      secondSet := st.topSet,
      topddxcount := testcount, topddx := item4, topSet := inter,
      secondMultipleSet := st.topMultipleSet.union st.secondMultipleSet.clear,
      topMultipleSet := st.topMultipleSet.clear }
  else if testcount == st.topddxcount then
    { st with
      topMultipleSet := (st.topMultipleSet.addVal (.str st.topddx)).addVal (.str item4) }
  else if testcount > st.seconddxcount then
    { st with
      seconddxcount := testcount, seconddx := item4, secondSet := inter,
      secondMultipleSet := st.secondMultipleSet.clear }
  else if testcount == st.seconddxcount then
    { st with
      secondMultipleSet := (st.secondMultipleSet.addVal (.str st.seconddx)).addVal (.str item4) }
  else st

/-- The full ranking scan over the candidate names. -/
def rankScan (finalSet : JSSet) (names : List String) : RankState :=
  names.foldl (rankStep finalSet) initRank

/-- The ranker pipeline of the click handler, starting from the resolved
(pre-augmentation) localization set `finalSet0` and the checked symptom ids:
build `finalDx` and `noset` in the symptom loop, then augment
`finalSet = finalSet.union(noset)` (line 488), then scan `finalDx.keys()`.
(The stored values of `finalDx` are the diagnosis name strings, so the
scanned names are the entries' property names.) -/
def runRanker (finalSet0 : JSSet) (symptoms : List String) : RankState :=
  let finalDx := finalDxOf finalSet0 symptoms
  let noset := nosetOf symptoms
  let finalSet := finalSet0.union noset
  rankScan finalSet (finalDx.data.map Prod.fst)

/-- What `#area1` shows (lines 550–561): the tied-for-top names when the tie
group is non-empty, otherwise the single top diagnosis with its overlap. -/
inductive Area1 where
  | multiple : List JSVal → Area1
  | single : String → List JSVal → Area1
deriving DecidableEq, Repr

/-- What `#area2` shows (lines 563–576): the second-place rendering, after
the final dedup overwrite. -/
inductive Area2 where
  | noAdditional : Area2
  | alsoConsider : List JSVal → Area2
  | single : String → List JSVal → Area2
deriving DecidableEq, Repr

def renderArea1 (st : RankState) : Area1 :=
  if st.topMultipleSet.isEmpty == false then .multiple st.topMultipleSet.keys
  else .single st.topddx st.topSet.keys

/-- Lines 563–576: `#area2` is first set from `secondMultipleSet` / the
single `seconddx`, then overwritten with "No additional differentials" when
`topMultipleSet.has(seconddx) || topddx == seconddx`. -/
def renderArea2 (st : RankState) : Area2 :=
  if st.topMultipleSet.has (.str st.seconddx) || st.topddx == st.seconddx then
    .noAdditional
  else if st.secondMultipleSet.isEmpty == false then
    .alsoConsider st.secondMultipleSet.keys
  else
    .single st.seconddx st.secondSet.keys

/-!
## Object-identity model of the click handler

The frame claim (registry immutability) is about which *objects* the handler
mutates, which the value-level model above erases.  Here the same handler is
embedded over an explicit heap of `Set` objects: every `new Set`, `union`,
`intersection` and `difference` allocates, while `add` and `clear` write the
receiver in place, exactly as the prototype methods do.  The knowledge-base
objects occupy the low heap addresses; the claim is that the handler never
writes any of them.
-/

/-- A heap of `Set` objects, addressed by allocation index. -/
structure Heap where
  objs : List (List (String × JSVal))
deriving Repr

/-- Allocation: a fresh object at the next address. -/
def Heap.alloc (h : Heap) (d : List (String × JSVal)) : Nat × Heap :=
  (h.objs.length, ⟨h.objs ++ [d]⟩)

/-- Reading an object's backing store. -/
def Heap.read (h : Heap) (r : Nat) : List (String × JSVal) :=
  (h.objs.get? r).getD []

/-- In-place update of an object's backing store. -/
def Heap.write (h : Heap) (r : Nat) (d : List (String × JSVal)) : Heap :=
  ⟨h.objs.set r d⟩

/-- `r.add(v)`: mutates the receiver, the variable keeps pointing at it. -/
def Heap.addValAt (h : Heap) (r : Nat) (v : JSVal) : Heap :=
  h.write r (JSSet.storeKey (h.read r) v.toKey v)

/-- `r.clear()`: empties the receiver in place. -/
def Heap.clearAt (h : Heap) (r : Nat) : Heap :=
  h.write r []

/-- `r1.union(r2)`: allocates the fresh result of `makeNew(this).add(other)`;
the operands are only read. -/
def Heap.unionAt (h : Heap) (r1 r2 : Nat) : Nat × Heap :=
  h.alloc (JSSet.union ⟨h.read r1⟩ ⟨h.read r2⟩).data

/-- `r1.intersection(r2)`: allocates the fresh filtered set. -/
def Heap.interAt (h : Heap) (r1 r2 : Nat) : Nat × Heap :=
  h.alloc (JSSet.intersection ⟨h.read r1⟩ ⟨h.read r2⟩).data

/-- `r1.difference(r2)`: allocates the fresh filtered set. -/
def Heap.diffAt (h : Heap) (r1 r2 : Nat) : Nat × Heap :=
  h.alloc (JSSet.difference ⟨h.read r1⟩ ⟨h.read r2⟩).data

/-- The knowledge-base objects, allocated once at script load (lines
340–373), in source order. -/
def kbSets : List JSSet :=
  [all, horizontal_LZ, diagonal_LZ, vertical_LZ, leftLG_LZ, rightLG_LZ,
   lefthyper_LZ, righthyper_LZ, nohyper_LZ, lefttilt_LZ, righttilt_LZ,
   rightlarger_LZ, leftlarger_LZ, dark_LZ, light_LZ, ddx_list,
   RINO, LINO, RCNIIIPalsy, LCNIIIPalsy, RCNIVPalsy, LCNIVPalsy, RCNVIPalsy,
   LCNVIPalsy, IncreasedICP, IntracranialAneurysm, CavernousSinus,
   MidbrainattheLeveloftheSuperiorCerebellarPeduncle, BaseoftheMidbrain,
   Horner, DorsalPons, TegmentumoftheMidbrain]

/-- The heap as it stands when the click handler starts. -/
def kbHeap : Heap := ⟨kbSets.map JSSet.data⟩

/-- Number of knowledge-base objects (their addresses are `0 … kbLen - 1`). -/
def kbLen : Nat := kbHeap.objs.length

/-- Heap address of a zone variable (`eval(id + "_LZ")`). -/
def zoneRef : String → Nat
  | "horizontal" => 1
  | "diagonal" => 2
  | "vertical" => 3
  | "leftLG" => 4
  | "rightLG" => 5
  | "lefthyper" => 6
  | "righthyper" => 7
  | "nohyper" => 8
  | "lefttilt" => 9
  | "righttilt" => 10
  | "rightlarger" => 11
  | "leftlarger" => 12
  | "dark" => 13
  | "light" => 14
  | _ => 0

/-- Heap address of a diagnosis variable (`eval(name.replace(/\s+/g, ""))`). -/
def dxRef : String → Nat
  | "R INO" => 16
  | "L INO" => 17
  | "R CN III Palsy" => 18
  | "L CN III Palsy" => 19
  | "R CN IV Palsy" => 20
  | "L CN IV Palsy" => 21
  | "R CN VI Palsy" => 22
  | "L CN VI Palsy" => 23
  | "Increased ICP" => 24
  | "Intracranial Aneurysm" => 25
  | "Cavernous Sinus" => 26
  | "Midbrain at the Level of the Superior Cerebellar Peduncle" => 27
  | "Base of the Midbrain" => 28
  | "Horner" => 29
  | "Dorsal Pons" => 30
  | "Tegmentum of the Midbrain" => 31
  | _ => 0

/-- The scan locals, with the set-valued ones as heap addresses. -/
structure HRankState where
  topddxcount : Nat
  topddx : String
  topSetR : Nat
  seconddxcount : Nat
  seconddx : String
  secondSetR : Nat
  secondMultipleR : Nat
  topMultipleR : Nat
deriving Repr

/-- One iteration of the ranking scan over the heap (lines 490–548).
`topMultipleSet = topMultipleSet.clear()` and the `add` calls mutate the
pointed-to object and leave the variable's address unchanged;
`topMultipleSet.union(secondMultipleSet)` allocates, so `secondMultipleSet`
is repointed at the fresh object. -/
def hRankStep (finalSetR : Nat) (acc : HRankState × Heap) (item4 : String) :
    HRankState × Heap :=
  let st := acc.1
  let ia := acc.2.interAt (dxRef item4) finalSetR
  let interR := ia.1
  let h := ia.2
  let testcount := (h.read interR).length
  if st.topddxcount == 0 && st.seconddxcount == 0 then
    ({ st with
       topddxcount := testcount, topddx := item4, topSetR := interR,
       seconddxcount := testcount, seconddx := item4, secondSetR := interR }, h)
  else if testcount > st.topddxcount then
    let h1 := h.clearAt st.secondMultipleR
    let un := h1.unionAt st.topMultipleR st.secondMultipleR
    let h2 := un.2.clearAt st.topMultipleR
    ({ st with
       seconddxcount := st.topddxcount, seconddx := st.topddx,
       secondSetR := st.topSetR,
       topddxcount := testcount, topddx := item4, topSetR := interR,
       secondMultipleR := un.1 }, h2)
  else if testcount == st.topddxcount then
    let h1 := h.addValAt st.topMultipleR (.str st.topddx)
    let h2 := h1.addValAt st.topMultipleR (.str item4)
    (st, h2)
  else if testcount > st.seconddxcount then
    let h1 := h.clearAt st.secondMultipleR
    ({ st with seconddxcount := testcount, seconddx := item4,
               secondSetR := interR }, h1)
  else if testcount == st.seconddxcount then
    let h1 := h.addValAt st.secondMultipleR (.str st.seconddx)
    let h2 := h1.addValAt st.secondMultipleR (.str item4)
    (st, h2)
  else (st, h)

/-- The inner diagnosis loop of one symptom iteration (lines 450–465): for
each diagnosis, allocate `curDxSet.intersection(finalSet)` and, when the
feature set has the symptom and the intersection is non-empty, `add` the
name to the fresh `curRunningSet` in place. -/
def hDdxStep (finalSetR : Nat) (cur_symptom : String)
    (acc2 : Nat × Heap) (curDxSpace : String) : Nat × Heap :=
  let curR := acc2.1
  let curDxSetR := dxRef curDxSpace
  let overlapLocal := JSSet.has ⟨acc2.2.read curDxSetR⟩ (.str cur_symptom)
  let ia := acc2.2.interAt curDxSetR finalSetR
  let overlapDDxR := ia.1
  let h := ia.2
  if overlapLocal && JSSet.isEmpty ⟨h.read overlapDDxR⟩ == false
  then (curR, h.addValAt curR (.str curDxSpace))
  else (curR, h)

/-- One iteration of the symptom loop over the heap (lines 440–475):
`noset.add(cur_symptom)` mutates `noset`; `curRunningSet` starts as a fresh
`new Set([])` and is mutated by `add`; each inner iteration allocates
`curDxSet.intersection(finalSet)`; the `finalDx` update allocates the
difference and the union and repoints `finalDx`. -/
def hSymptomStep (finalSetR nosetR : Nat) (acc : Nat × Heap) (cur_symptom : String) :
    Nat × Heap :=
  let finalDxR := acc.1
  let h0 := acc.2.addValAt nosetR (.str cur_symptom)
  let al := h0.alloc []
  let fold := ddxNames.foldl (hDdxStep finalSetR cur_symptom) al
  let curRunningSetR := fold.1
  let h := fold.2
  if JSSet.equals ⟨h.read finalDxR⟩ ⟨h.read curRunningSetR⟩ == false then
    let df := h.diffAt curRunningSetR finalDxR
    let un := df.2.unionAt finalDxR df.1
    un
  else (finalDxR, h)

/-- The whole click handler (lines 391–617) over the heap, given the checked
zone ids and the checked symptom ids.  Only the heap effects are kept; the
DOM writes read the heap and are dropped. -/
def hZoneStep (acc : Nat × Heap) (zid : String) : Nat × Heap :=
  let curSetR := zoneRef zid
  if JSSet.isEmpty ⟨acc.2.read acc.1⟩ then acc.2.unionAt acc.1 curSetR
  else acc.2.interAt acc.1 curSetR

def runHandlerHeap (zoneIds symptomIds : List String) : Heap :=
  let a1 := kbHeap.alloc []                 -- var finalSet = new Set([])
  let finalSetR0 := a1.1
  let a2 := a1.2.alloc []                   -- var finalSymptoms = new Set([])
  let a3 := a2.2.alloc []                   -- var finalDx = new Set([])
  let finalDxR := a3.1
  let a4 := a3.2.alloc []                   -- var overlapLocal = new Set([])
  let a5 := a4.2.alloc []                   -- var overlapDDx = new Set([])
  let zfold := zoneIds.foldl hZoneStep (finalSetR0, a5.2)
  let finalSetR := zfold.1
  let h6 := zfold.2
  if JSSet.isEmpty ⟨h6.read finalSetR⟩ then h6     -- "No localizations found!"
  else
    let a7 := h6.alloc []                   -- var noset = new Set([])
    let nosetR := a7.1
    if symptomIds.isEmpty then a7.2         -- no symptom checked: clear areas
    else
      let sfold := symptomIds.foldl (hSymptomStep finalSetR nosetR)
        (finalDxR, a7.2)
      let finalDxR1 := sfold.1
      let a8 := sfold.2.alloc []            -- var topSet = new Set([])
      let topSetR := a8.1
      let a9 := a8.2.alloc []               -- var secondSet = new Set([])
      let secondSetR := a9.1
      let a10 := a9.2.alloc []              -- var secondMultipleSet = new Set([])
      let secondMultipleR := a10.1
      let a11 := a10.2.alloc []             -- var topMultipleSet = new Set([])
      let topMultipleR := a11.1
      let un := a11.2.unionAt finalSetR nosetR     -- augmentation
      let finalSetR1 := un.1
      let h12 := un.2
      let names := (h12.read finalDxR1).map Prod.fst
      let rfold := names.foldl (hRankStep finalSetR1)
        (⟨0, "", topSetR, 0, "", secondSetR, secondMultipleR, topMultipleR⟩, h12)
      rfold.2

/-- The knowledge-base objects are intact in a heap: every address below
`kbLen` still holds exactly the object it held when the handler started. -/
def kbPreserved (h : Heap) : Prop :=
  kbLen ≤ h.objs.length ∧ ∀ i, i < kbLen → h.objs[i]? = kbHeap.objs[i]?

/-! ## Membership lemmas for the `Set` operations -/

namespace JSSet

theorem hasKey_iff (s : JSSet) (k : String) :
    s.hasKey k = true ↔ ∃ p ∈ s.data, p.1 = k := by
  simp [hasKey]

theorem any_storeKey (d : List (String × JSVal)) (k : String) (v : JSVal)
    (k' : String) :
    (storeKey d k v).any (fun p => p.1 = k') = true ↔
      (k = k' ∨ d.any (fun p => p.1 = k') = true) := by
  induction d with
  | nil => simp [storeKey]
  | cons a rest ih =>
      obtain ⟨a1, a2⟩ := a
      by_cases hak : a1 = k
      · subst hak
        simp only [storeKey, eq_self_iff_true, if_true]
        simp only [List.any_cons, Bool.or_eq_true, decide_eq_true_eq]
        tauto
      · simp only [storeKey, if_neg hak]
        simp only [List.any_cons, Bool.or_eq_true, decide_eq_true_eq, ih]
        tauto

theorem hasKey_addPair (s : JSSet) (k : String) (v : JSVal) (k' : String) :
    (s.addPair k v).hasKey k' = true ↔ (k = k' ∨ s.hasKey k' = true) := by
  simpa [addPair, hasKey] using any_storeKey s.data k v k'

theorem hasKey_addVal (s : JSSet) (v : JSVal) (k : String) :
    (s.addVal v).hasKey k = true ↔ (v.toKey = k ∨ s.hasKey k = true) :=
  hasKey_addPair s v.toKey v k

theorem hasKey_foldl_addPair (l : List (String × JSVal)) (s : JSSet)
    (k : String) :
    (l.foldl (fun a p => a.addPair p.1 p.2) s).hasKey k = true ↔
      (s.hasKey k = true ∨ (JSSet.mk l).hasKey k = true) := by
  induction l generalizing s with
  | nil => simp [hasKey]
  | cons p rest ih =>
      rw [List.foldl_cons, ih, hasKey_addPair]
      simp only [hasKey, List.any_cons, Bool.or_eq_true, decide_eq_true_eq]
      tauto

theorem hasKey_addSet (s t : JSSet) (k : String) :
    (s.addSet t).hasKey k = true ↔ (s.hasKey k = true ∨ t.hasKey k = true) := by
  simpa [addSet] using hasKey_foldl_addPair t.data s k

theorem hasKey_empty (k : String) : JSSet.empty.hasKey k = false := rfl

theorem hasKey_union (s t : JSSet) (k : String) :
    (s.union t).hasKey k = true ↔ (s.hasKey k = true ∨ t.hasKey k = true) := by
  simp [union, hasKey_addSet, hasKey_empty]

theorem hasKey_foldl_filterAdd (g : (String × JSVal) → Bool)
    (l : List (String × JSVal)) (s : JSSet) (k : String) :
    (l.foldl (fun a p => if g p then a.addPair p.1 p.2 else a) s).hasKey k
        = true ↔
      (s.hasKey k = true ∨ ∃ p ∈ l, g p = true ∧ p.1 = k) := by
  induction l generalizing s with
  | nil => simp
  | cons p rest ih =>
      by_cases hg : g p = true
      · rw [List.foldl_cons, if_pos hg, ih, hasKey_addPair]
        simp only [List.mem_cons]
        constructor
        · rintro ((h | h) | ⟨q, hq, hgq, rfl⟩)
          · exact Or.inr ⟨p, Or.inl rfl, hg, h⟩
          · exact Or.inl h
          · exact Or.inr ⟨q, Or.inr hq, hgq, rfl⟩
        · rintro (h | ⟨q, (rfl | hq), hgq, rfl⟩)
          · exact Or.inl (Or.inr h)
          · exact Or.inl (Or.inl rfl)
          · exact Or.inr ⟨q, hq, hgq, rfl⟩
      · rw [List.foldl_cons, if_neg hg, ih]
        simp only [List.mem_cons]
        constructor
        · rintro (h | ⟨q, hq, hgq, rfl⟩)
          · exact Or.inl h
          · exact Or.inr ⟨q, Or.inr hq, hgq, rfl⟩
        · rintro (h | ⟨q, (rfl | hq), hgq, rfl⟩)
          · exact Or.inl h
          · exact absurd hgq hg
          · exact Or.inr ⟨q, hq, hgq, rfl⟩

theorem hasKey_foldl_filterSkip (g : (String × JSVal) → Bool)
    (l : List (String × JSVal)) (s : JSSet) (k : String) :
    (l.foldl (fun a p => if g p then a else a.addPair p.1 p.2) s).hasKey k
        = true ↔
      (s.hasKey k = true ∨ ∃ p ∈ l, g p = false ∧ p.1 = k) := by
  induction l generalizing s with
  | nil => simp
  | cons p rest ih =>
      by_cases hg : g p = true
      · rw [List.foldl_cons, if_pos hg, ih]
        simp only [List.mem_cons]
        constructor
        · rintro (h | ⟨q, hq, hgq, rfl⟩)
          · exact Or.inl h
          · exact Or.inr ⟨q, Or.inr hq, hgq, rfl⟩
        · rintro (h | ⟨q, (rfl | hq), hgq, rfl⟩)
          · exact Or.inl h
          · rw [hg] at hgq; cases hgq
          · exact Or.inr ⟨q, hq, hgq, rfl⟩
      · rw [List.foldl_cons, if_neg hg, ih, hasKey_addPair]
        rw [Bool.not_eq_true] at hg
        simp only [List.mem_cons]
        constructor
        · rintro ((h | h) | ⟨q, hq, hgq, rfl⟩)
          · exact Or.inr ⟨p, Or.inl rfl, hg, h⟩
          · exact Or.inl h
          · exact Or.inr ⟨q, Or.inr hq, hgq, rfl⟩
        · rintro (h | ⟨q, (rfl | hq), hgq, rfl⟩)
          · exact Or.inl (Or.inr h)
          · exact Or.inl (Or.inl rfl)
          · exact Or.inr ⟨q, hq, hgq, rfl⟩

theorem hasKey_intersection (s t : JSSet) (k : String) :
    (s.intersection t).hasKey k = true ↔
      (s.hasKey k = true ∧ t.hasKey k = true) := by
  have h := hasKey_foldl_filterAdd (fun p => t.hasKey p.1) s.data JSSet.empty k
  simp only [intersection]
  rw [h]
  simp only [hasKey_empty, Bool.false_eq_true, false_or]
  constructor
  · rintro ⟨p, hp, hg, rfl⟩
    exact ⟨(hasKey_iff s p.1).2 ⟨p, hp, rfl⟩, hg⟩
  · rintro ⟨hs, ht⟩
    rcases (hasKey_iff s k).1 hs with ⟨p, hp, rfl⟩
    exact ⟨p, hp, ht, rfl⟩

theorem hasKey_difference (s t : JSSet) (k : String) :
    (s.difference t).hasKey k = true ↔
      (s.hasKey k = true ∧ t.hasKey k = false) := by
  have h := hasKey_foldl_filterSkip (fun p => t.hasKey p.1) s.data JSSet.empty k
  simp only [difference]
  rw [h]
  simp only [hasKey_empty, Bool.false_eq_true, false_or]
  constructor
  · rintro ⟨p, hp, hg, rfl⟩
    exact ⟨(hasKey_iff s p.1).2 ⟨p, hp, rfl⟩, hg⟩
  · rintro ⟨hs, ht⟩
    rcases (hasKey_iff s k).1 hs with ⟨p, hp, rfl⟩
    exact ⟨p, hp, ht, rfl⟩

theorem isEmpty_eq_false_iff (s : JSSet) :
    s.isEmpty = false ↔ ∃ k, s.hasKey k = true := by
  rcases s with ⟨d⟩
  cases d with
  | nil => simp [isEmpty, hasKey]
  | cons p rest =>
      simp only [isEmpty, List.isEmpty_cons]
      constructor
      · intro _
        exact ⟨p.1, by simp [hasKey]⟩
      · intro _
        trivial

theorem isEmpty_eq_true_iff (s : JSSet) :
    s.isEmpty = true ↔ ∀ k, s.hasKey k = false := by
  constructor
  · intro h k
    rcases s with ⟨d⟩
    cases d with
    | nil => rfl
    | cons p rest => simp [isEmpty] at h
  · intro h
    cases he : s.isEmpty with
    | true => rfl
    | false =>
        rcases (isEmpty_eq_false_iff s).1 he with ⟨k, hk⟩
        rw [h k] at hk
        cases hk

theorem isSubset_iff (s t : JSSet) :
    s.isSubset t = true ↔ ∀ k, s.hasKey k = true → t.hasKey k = true := by
  simp only [isSubset, List.all_eq_true]
  constructor
  · intro h k hk
    rcases (hasKey_iff s k).1 hk with ⟨p, hp, rfl⟩
    exact h p hp
  · intro h p hp
    exact h p.1 ((hasKey_iff s p.1).2 ⟨p, hp, rfl⟩)

theorem isSuperset_iff (s t : JSSet) :
    s.isSuperset t = true ↔ ∀ k, t.hasKey k = true → s.hasKey k = true := by
  simp only [isSuperset, List.all_eq_true]
  constructor
  · intro h k hk
    rcases (hasKey_iff t k).1 hk with ⟨p, hp, rfl⟩
    exact h p hp
  · intro h p hp
    exact h p.1 ((hasKey_iff t p.1).2 ⟨p, hp, rfl⟩)

theorem equals_iff (s t : JSSet) :
    s.equals t = true ↔ ∀ k, s.hasKey k = t.hasKey k := by
  simp only [equals, Bool.and_eq_true, isSubset_iff, isSuperset_iff]
  constructor
  · rintro ⟨hst, hts⟩ k
    cases hs : s.hasKey k with
    | true => exact (hst k hs).symm
    | false =>
        cases ht : t.hasKey k with
        | true => rw [hts k ht] at hs; cases hs
        | false => rfl
  · intro h
    exact ⟨fun k hk => (h k) ▸ hk, fun k hk => (h k).symm ▸ hk⟩

/-! ### Key uniqueness: `storeKey` never duplicates a property name -/

theorem mem_map_fst_storeKey (d : List (String × JSVal)) (k : String)
    (v : JSVal) (x : String) :
    x ∈ (storeKey d k v).map Prod.fst ↔ (x = k ∨ x ∈ d.map Prod.fst) := by
  induction d with
  | nil => simp [storeKey]
  | cons a rest ih =>
      obtain ⟨a1, a2⟩ := a
      by_cases hak : a1 = k
      · subst hak
        simp only [storeKey, eq_self_iff_true, if_true, List.map_cons,
          List.mem_cons]
        tauto
      · simp only [storeKey, if_neg hak, List.map_cons, List.mem_cons, ih]
        tauto

theorem nodup_fst_storeKey (d : List (String × JSVal)) (k : String)
    (v : JSVal) (h : (d.map Prod.fst).Nodup) :
    ((storeKey d k v).map Prod.fst).Nodup := by
  induction d with
  | nil => simp [storeKey]
  | cons a rest ih =>
      obtain ⟨a1, a2⟩ := a
      simp only [List.map_cons, List.nodup_cons] at h
      by_cases hak : a1 = k
      · subst hak
        simp only [storeKey, eq_self_iff_true, if_true, List.map_cons,
          List.nodup_cons]
        exact h
      · simp only [storeKey, if_neg hak, List.map_cons, List.nodup_cons,
          mem_map_fst_storeKey]
        refine ⟨fun hc => ?_, ih h.2⟩
        rcases hc with rfl | hc
        · exact hak rfl
        · exact h.1 hc

theorem nodup_fst_addPair (s : JSSet) (k : String) (v : JSVal)
    (h : (s.data.map Prod.fst).Nodup) :
    ((s.addPair k v).data.map Prod.fst).Nodup :=
  nodup_fst_storeKey s.data k v h

/-- Key uniqueness is preserved by any fold whose step either keeps the
accumulator or `_add`s one pair to it. -/
theorem nodup_fst_foldl {β : Type} (f : JSSet → β → JSSet)
    (hf : ∀ a b, (a.data.map Prod.fst).Nodup → ((f a b).data.map Prod.fst).Nodup)
    (l : List β) (s : JSSet) (h : (s.data.map Prod.fst).Nodup) :
    ((l.foldl f s).data.map Prod.fst).Nodup := by
  induction l generalizing s with
  | nil => exact h
  | cons b rest ih => exact ih (f s b) (hf s b h)

theorem nodup_fst_addSet (s t : JSSet) (h : (s.data.map Prod.fst).Nodup) :
    ((s.addSet t).data.map Prod.fst).Nodup := by
  show ((t.data.foldl (fun a p => a.addPair p.1 p.2) s).data.map Prod.fst).Nodup
  exact nodup_fst_foldl (fun a p => a.addPair p.1 p.2)
    (fun a p hp => nodup_fst_addPair a p.1 p.2 hp) t.data s h

theorem nodup_fst_union (s t : JSSet) :
    ((s.union t).data.map Prod.fst).Nodup :=
  nodup_fst_addSet _ t (nodup_fst_addSet JSSet.empty s (by simp [empty]))

theorem nodup_fst_intersection (s t : JSSet) :
    ((s.intersection t).data.map Prod.fst).Nodup := by
  refine nodup_fst_foldl _ ?_ s.data JSSet.empty (by simp [empty])
  intro a p h
  by_cases hp : t.hasKey p.1 = true
  · rw [if_pos hp]; exact nodup_fst_addPair a p.1 p.2 h
  · rw [if_neg hp]; exact h

theorem nodup_fst_difference (s t : JSSet) :
    ((s.difference t).data.map Prod.fst).Nodup := by
  refine nodup_fst_foldl _ ?_ s.data JSSet.empty (by simp [empty])
  intro a p h
  by_cases hp : t.hasKey p.1 = true
  · rw [if_pos hp]; exact h
  · rw [if_neg hp]; exact nodup_fst_addPair a p.1 p.2 h

end JSSet

/-! ## Membership lemmas for the resolver and ranker -/

theorem hasKey_nosetOf (symptoms : List String) (k : String) :
    (nosetOf symptoms).hasKey k = true ↔ k ∈ symptoms := by
  have master : ∀ (l : List String) (s : JSSet),
      (l.foldl (fun a x => a.addVal (.str x)) s).hasKey k = true ↔
        (s.hasKey k = true ∨ k ∈ l) := by
    intro l
    induction l with
    | nil => simp
    | cons x rest ih =>
        intro s
        rw [List.foldl_cons, ih, JSSet.hasKey_addVal]
        simp only [JSVal.toKey, List.mem_cons]
        tauto
  rw [nosetOf, master]
  simp [JSSet.hasKey_empty]

theorem hasKey_ofStrings (l : List String) (k : String) :
    (JSSet.ofStrings l).hasKey k = true ↔ k ∈ l := by
  have master : ∀ (l : List String) (s : JSSet),
      (l.foldl (fun a x => a.addVal (.str x)) s).hasKey k = true ↔
        (s.hasKey k = true ∨ k ∈ l) := by
    intro l
    induction l with
    | nil => simp
    | cons x rest ih =>
        intro s
        rw [List.foldl_cons, ih, JSSet.hasKey_addVal]
        simp only [JSVal.toKey, List.mem_cons]
        tauto
  rw [JSSet.ofStrings, master]
  simp [JSSet.hasKey_empty]

/-- Membership in a per-symptom candidate set: exactly the diagnoses whose
feature set contains the symptom and meets the localization set. -/
theorem hasKey_candidatesForSymptom (finalSet : JSSet) (sym k : String) :
    (candidatesForSymptom finalSet sym).hasKey k = true ↔
      (k ∈ ddxNames ∧ (dxFeatures k).has (.str sym) = true ∧
       ((dxFeatures k).intersection finalSet).isEmpty = false) := by
  have master : ∀ (l : List String) (s : JSSet),
      (l.foldl
        (fun curRunningSet curDxSpace =>
          let curDxSet := dxFeatures curDxSpace
          let overlapLocal := curDxSet.has (.str sym)
          let overlapDDx := curDxSet.intersection finalSet
          if overlapLocal && overlapDDx.isEmpty == false
          then curRunningSet.addVal (.str curDxSpace)
          else curRunningSet) s).hasKey k = true ↔
        (s.hasKey k = true ∨
          (k ∈ l ∧ (dxFeatures k).has (.str sym) = true ∧
           ((dxFeatures k).intersection finalSet).isEmpty = false)) := by
    intro l
    induction l with
    | nil => simp
    | cons n rest ih =>
        intro s
        rw [List.foldl_cons]
        show (rest.foldl _
          (if (dxFeatures n).has (.str sym) &&
              ((dxFeatures n).intersection finalSet).isEmpty == false
           then s.addVal (.str n) else s)).hasKey k = true ↔ _
        by_cases hn : ((dxFeatures n).has (.str sym) &&
            ((dxFeatures n).intersection finalSet).isEmpty == false) = true
        · rw [if_pos hn, ih, JSSet.hasKey_addVal]
          simp only [Bool.and_eq_true, beq_iff_eq] at hn
          simp only [JSVal.toKey, List.mem_cons]
          constructor
          · rintro ((rfl | h) | h)
            · exact Or.inr ⟨Or.inl rfl, hn.1, hn.2⟩
            · exact Or.inl h
            · exact Or.inr ⟨Or.inr h.1, h.2⟩
          · rintro (h | ⟨(rfl | hm), hhas, hne⟩)
            · exact Or.inl (Or.inr h)
            · exact Or.inl (Or.inl rfl)
            · exact Or.inr ⟨hm, hhas, hne⟩
        · rw [if_neg hn, ih]
          simp only [Bool.and_eq_true, beq_iff_eq, not_and] at hn
          simp only [List.mem_cons]
          constructor
          · rintro (h | h)
            · exact Or.inl h
            · exact Or.inr ⟨Or.inr h.1, h.2⟩
          · rintro (h | ⟨(rfl | hm), hhas, hne⟩)
            · exact Or.inl h
            · exact absurd hne (hn hhas)
            · exact Or.inr ⟨hm, hhas, hne⟩
  rw [candidatesForSymptom, master]
  simp [JSSet.hasKey_empty]

/-- Membership in `finalDx`: the union, over the selected symptoms, of the
per-symptom candidate sets. -/
theorem hasKey_finalDxOf (finalSet : JSSet) (symptoms : List String)
    (k : String) :
    (finalDxOf finalSet symptoms).hasKey k = true ↔
      ∃ s ∈ symptoms, (candidatesForSymptom finalSet s).hasKey k = true := by
  have step : ∀ (a : JSSet) (s : String),
      ((if a.equals (candidatesForSymptom finalSet s) == false
        then a.union ((candidatesForSymptom finalSet s).difference a)
        else a).hasKey k = true) ↔
        (a.hasKey k = true ∨
          (candidatesForSymptom finalSet s).hasKey k = true) := by
    intro a s
    by_cases he : a.equals (candidatesForSymptom finalSet s) = true
    · have heq := (JSSet.equals_iff a _).1 he k
      rw [if_neg (by simp [he]), heq]
      tauto
    · rw [if_pos (by simp [Bool.not_eq_true] at he; simp [he]),
        JSSet.hasKey_union]
      constructor
      · rintro (h | h)
        · exact Or.inl h
        · exact Or.inr ((JSSet.hasKey_difference _ _ _).1 h).1
      · rintro (h | h)
        · exact Or.inl h
        · by_cases ha : a.hasKey k = true
          · exact Or.inl ha
          · exact Or.inr ((JSSet.hasKey_difference _ _ _).2
              ⟨h, Bool.not_eq_true _ ▸ ha⟩)
  have master : ∀ (l : List String) (a : JSSet),
      (l.foldl
        (fun finalDx s =>
          let curRunningSet := candidatesForSymptom finalSet s
          if finalDx.equals curRunningSet == false
          then finalDx.union (curRunningSet.difference finalDx)
          else finalDx) a).hasKey k = true ↔
        (a.hasKey k = true ∨
          ∃ s ∈ l, (candidatesForSymptom finalSet s).hasKey k = true) := by
    intro l
    induction l with
    | nil => simp
    | cons s rest ih =>
        intro a
        rw [List.foldl_cons]
        show (rest.foldl _
          (if a.equals (candidatesForSymptom finalSet s) == false
           then a.union ((candidatesForSymptom finalSet s).difference a)
           else a)).hasKey k = true ↔ _
        rw [ih, step a s]
        simp only [List.mem_cons]
        constructor
        · rintro ((h | h) | ⟨t, ht, h⟩)
          · exact Or.inl h
          · exact Or.inr ⟨s, Or.inl rfl, h⟩
          · exact Or.inr ⟨t, Or.inr ht, h⟩
        · rintro (h | ⟨t, (rfl | ht), h⟩)
          · exact Or.inl (Or.inl h)
          · exact Or.inl (Or.inr h)
          · exact Or.inr ⟨t, ht, h⟩
  rw [finalDxOf, master]
  simp [JSSet.hasKey_empty]

/-! ## Equation forms of the membership lemmas -/

theorem JSSet.hasKey_union_eq (s t : JSSet) (k : String) :
    (s.union t).hasKey k = (s.hasKey k || t.hasKey k) := by
  apply Bool.eq_iff_iff.mpr
  rw [JSSet.hasKey_union, Bool.or_eq_true]

theorem JSSet.hasKey_intersection_eq (s t : JSSet) (k : String) :
    (s.intersection t).hasKey k = (s.hasKey k && t.hasKey k) := by
  apply Bool.eq_iff_iff.mpr
  rw [JSSet.hasKey_intersection, Bool.and_eq_true]

theorem JSSet.hasKey_difference_eq (s t : JSSet) (k : String) :
    (s.difference t).hasKey k = (s.hasKey k && !t.hasKey k) := by
  apply Bool.eq_iff_iff.mpr
  rw [JSSet.hasKey_difference, Bool.and_eq_true, Bool.not_eq_true']

theorem JSSet.hasKey_mem_map_fst (s : JSSet) (k : String) :
    s.hasKey k = true ↔ k ∈ s.data.map Prod.fst := by
  rw [JSSet.hasKey_iff]
  constructor
  · rintro ⟨p, hp, rfl⟩
    exact List.mem_map.2 ⟨p, hp, rfl⟩
  · intro h
    rcases List.mem_map.1 h with ⟨p, hp, rfl⟩
    exact ⟨p, hp, rfl⟩

/-! ## Claim theorems -/

/-- **C7.** Set algebra: for all `Set`s `A` and `B`,
`A.union(B).equals(B.union(A))`, `A.intersection(B).equals(B.intersection(A))`,
`A.difference(A).isEmpty()`, `A.union(A).equals(A)`, `A.isSubset(A)`, and
`A.equals(A.union(A.intersection(B)).union(A.difference(B)))`. -/
theorem C7_set_algebra (A B : JSSet) :
    (A.union B).equals (B.union A) = true ∧
    (A.intersection B).equals (B.intersection A) = true ∧
    (A.difference A).isEmpty = true ∧
    (A.union A).equals A = true ∧
    A.isSubset A = true ∧
    A.equals ((A.union (A.intersection B)).union (A.difference B)) = true := by
  refine ⟨?_, ?_, ?_, ?_, ?_, ?_⟩
  · rw [JSSet.equals_iff]
    intro k
    rw [JSSet.hasKey_union_eq, JSSet.hasKey_union_eq]
    exact Bool.or_comm _ _
  · rw [JSSet.equals_iff]
    intro k
    rw [JSSet.hasKey_intersection_eq, JSSet.hasKey_intersection_eq]
    exact Bool.and_comm _ _
  · rw [JSSet.isEmpty_eq_true_iff]
    intro k
    rw [JSSet.hasKey_difference_eq]
    cases A.hasKey k <;> rfl
  · rw [JSSet.equals_iff]
    intro k
    rw [JSSet.hasKey_union_eq]
    exact Bool.or_self _
  · rw [JSSet.isSubset_iff]
    intro k h
    exact h
  · rw [JSSet.equals_iff]
    intro k
    rw [JSSet.hasKey_union_eq, JSSet.hasKey_union_eq,
      JSSet.hasKey_intersection_eq, JSSet.hasKey_difference_eq]
    cases A.hasKey k <;> cases B.hasKey k <;> rfl

/-- **C6.** Resolving zero selected zone identifiers yields the empty `Set`,
and resolving a single selected zone identifier yields exactly that
identifier's zone `Set` (`Set` equality). -/
theorem C6_localization_bootstrap :
    resolveLocalization [] = JSSet.empty ∧
    ∀ zid : String, (resolveLocalization [zid]).equals (zoneLookup zid) = true := by
  refine ⟨rfl, fun zid => ?_⟩
  show ((if (JSSet.empty).isEmpty then JSSet.empty.union (zoneLookup zid)
         else JSSet.empty.intersection (zoneLookup zid))).equals
        (zoneLookup zid) = true
  rw [if_pos (show JSSet.empty.isEmpty = true from rfl), JSSet.equals_iff]
  intro k
  rw [JSSet.hasKey_union_eq, JSSet.hasKey_empty, Bool.false_or]

/-- **C1 counterexample.** The claim says the resolver always returns the
intersection of all the selected identifiers' zone `Set`s, via a
first-element-vs-rest fold.  It does not: the code re-seeds the accumulator
by union whenever the accumulator is *currently empty*, so after the
disjoint pair `horizontal`, `diagonal` empties it, the third zone `vertical`
is unioned in, and the result is `vertical_LZ` instead of the empty
three-way intersection. -/
theorem C1_counterexample :
    (resolveLocalization ["horizontal", "diagonal", "vertical"]).equals
      ((horizontal_LZ.intersection diagonal_LZ).intersection vertical_LZ)
      = false ∧
    (resolveLocalization ["horizontal", "diagonal", "vertical"]).equals
      vertical_LZ = true := by
  constructor
  · decide
  · decide

/-- **C1 (amended).** For every non-empty sequence of selected zone
identifiers, the resolver folds with an empty-accumulator test — union the
zone `Set` in when the accumulator is currently empty, intersect otherwise —
so *provided every proper-prefix intersection is non-empty*, the result is
the intersection of all the selected identifiers' zone `Set`s
(the first-element-vs-rest fold `specResolve`). -/
theorem C1_amended_resolver (i : String) (rest : List String)
    (hpre : ∀ n, n < rest.length →
      (specResolve (i :: rest.take n)).isEmpty = false) :
    (resolveLocalization (i :: rest)).equals (specResolve (i :: rest))
      = true := by
  have agrees : ∀ (l : List String) (a b : JSSet),
      (∀ k, a.hasKey k = b.hasKey k) →
      (∀ n, n < l.length →
        ((l.take n).foldl (fun x j => x.intersection (zoneLookup j)) b).isEmpty
          = false) →
      ∀ k, (l.foldl
              (fun finalSet zid =>
                let curSet := zoneLookup zid
                if finalSet.isEmpty then finalSet.union curSet
                else finalSet.intersection curSet) a).hasKey k =
           ((l.foldl (fun x j => x.intersection (zoneLookup j)) b)).hasKey k := by
    intro l
    induction l with
    | nil => intro a b hab _ k; exact hab k
    | cons j rest' ih =>
        intro a b hab hne k
        have hb : b.isEmpty = false := by
          simpa using hne 0 (Nat.succ_pos _)
        have ha : a.isEmpty = false := by
          rcases (JSSet.isEmpty_eq_false_iff b).1 hb with ⟨k0, hk0⟩
          exact (JSSet.isEmpty_eq_false_iff a).2 ⟨k0, (hab k0).symm ▸ hk0⟩
        rw [List.foldl_cons, List.foldl_cons]
        show ((rest'.foldl _
          (if a.isEmpty then a.union (zoneLookup j)
           else a.intersection (zoneLookup j)))).hasKey k = _
        rw [if_neg (by rw [ha]; exact Bool.false_ne_true)]
        apply ih
        · intro k'
          rw [JSSet.hasKey_intersection_eq, JSSet.hasKey_intersection_eq,
            hab k']
        · intro n hn
          have := hne (n + 1) (Nat.succ_lt_succ hn)
          simpa using this
  rw [JSSet.equals_iff]
  intro k
  show (rest.foldl _
    (if (JSSet.empty).isEmpty then JSSet.empty.union (zoneLookup i)
     else JSSet.empty.intersection (zoneLookup i))).hasKey k = _
  rw [if_pos (show JSSet.empty.isEmpty = true from rfl)]
  exact agrees rest (JSSet.empty.union (zoneLookup i)) (zoneLookup i)
    (fun k' => by rw [JSSet.hasKey_union_eq, JSSet.hasKey_empty, Bool.false_or])
    (fun n hn => hpre n hn) k

/-- Witness for `C1_amended_resolver`: selecting `lefttilt` then
`righthyper` (overlapping zone sets) produces exactly their intersection. -/
theorem C1_amended_resolver_witness :
    (∀ n, n < (["righthyper"] : List String).length →
      (specResolve ("lefttilt" :: (["righthyper"] : List String).take n)).isEmpty
        = false) ∧
    (resolveLocalization ["lefttilt", "righthyper"]).equals
      (specResolve ["lefttilt", "righthyper"]) = true :=
  ⟨by decide, C1_amended_resolver "lefttilt" ["righthyper"] (by decide)⟩

theorem countKey_storeKey_self (d : List (String × JSVal)) (k : String)
    (v : JSVal) (h : (d.map Prod.fst).Nodup) :
    countKey (JSSet.storeKey d k v) k = 1 := by
  induction d with
  | nil => simp [JSSet.storeKey, countKey]
  | cons a rest ih =>
      obtain ⟨a1, a2⟩ := a
      simp only [List.map_cons, List.nodup_cons] at h
      by_cases hak : a1 = k
      · subst hak
        simp only [JSSet.storeKey, eq_self_iff_true, if_true, countKey]
        rw [List.countP_cons_of_pos _ _ (by simp)]
        have hz : rest.countP (fun p => decide (p.1 = a1)) = 0 := by
          apply List.countP_eq_zero.mpr
          intro p hp hc
          rw [decide_eq_true_eq] at hc
          exact h.1 (hc ▸ List.mem_map.2 ⟨p, hp, rfl⟩)
        rw [hz]
      · simp only [JSSet.storeKey, if_neg hak, countKey]
        rw [List.countP_cons_of_neg _ _ (by simpa using hak)]
        exact ih h.2

theorem lookupKey_storeKey_self (d : List (String × JSVal)) (k : String)
    (v : JSVal) :
    lookupKey (JSSet.storeKey d k v) k = some v := by
  induction d with
  | nil => simp [JSSet.storeKey, lookupKey, List.find?]
  | cons a rest ih =>
      obtain ⟨a1, a2⟩ := a
      by_cases hak : a1 = k
      · subst hak
        simp [JSSet.storeKey, lookupKey, List.find?]
      · simp only [JSSet.storeKey, if_neg hak, lookupKey]
        rw [List.find?_cons_of_neg _ (by simpa using hak)]
        exact ih

/-- **C10.** In the default `Set`, element identity is the element's string
conversion: if `x` and `y` convert to the same string (e.g. the number `1`
and the string `"1"`), then after `add(x)` the call `has(y)` is true, and a
subsequent `add(y)` keeps exactly one entry under that property name and
overwrites the stored value with `y`. -/
theorem C10_string_conversion_identity (s : JSSet) (x y : JSVal)
    (hxy : x.toKey = y.toKey) :
    (s.addVal x).has y = true ∧
    ((s.data.map Prod.fst).Nodup →
      countKey ((s.addVal x).addVal y).data x.toKey = 1 ∧
      lookupKey ((s.addVal x).addVal y).data x.toKey = some y) := by
  constructor
  · show (s.addVal x).hasKey y.toKey = true
    exact (JSSet.hasKey_addVal s x y.toKey).2 (Or.inl hxy)
  · intro hnd
    constructor
    · show countKey (JSSet.storeKey (s.addVal x).data y.toKey y) x.toKey = 1
      rw [hxy]
      exact countKey_storeKey_self _ _ _ (JSSet.nodup_fst_addPair s x.toKey x hnd)
    · show lookupKey (JSSet.storeKey (s.addVal x).data y.toKey y) x.toKey
        = some y
      rw [hxy]
      exact lookupKey_storeKey_self _ _ _

/-- Witness for `C10_string_conversion_identity` at `x = 1`, `y = "1"` on the
empty `Set`. -/
theorem C10_witness :
    JSVal.toKey (.num 1) = JSVal.toKey (.str "1") ∧
    (JSSet.empty.addVal (.num 1)).has (.str "1") = true ∧
    countKey ((JSSet.empty.addVal (.num 1)).addVal (.str "1")).data
      (JSVal.toKey (.num 1)) = 1 ∧
    lookupKey ((JSSet.empty.addVal (.num 1)).addVal (.str "1")).data
      (JSVal.toKey (.num 1)) = some (.str "1") := by
  have h : JSVal.toKey (.num 1) = JSVal.toKey (.str "1") := by decide
  have hmain := C10_string_conversion_identity JSSet.empty (.num 1) (.str "1") h
  exact ⟨h, hmain.1, (hmain.2 (by decide)).1, (hmain.2 (by decide)).2⟩

/-- **C9.** With exactly one candidate, the initialization branch of the
ranking scan makes that candidate both top and second (same name, same
count), so the second-place output is always collapsed to "no additional
differentials": a single-candidate run can never report a distinct
runner-up. -/
theorem C9_single_candidate_no_runner_up (E : JSSet) (a : String) :
    (rankScan E [a]).topddx = a ∧ (rankScan E [a]).seconddx = a ∧
    (rankScan E [a]).topddxcount = (rankScan E [a]).seconddxcount ∧
    renderArea2 (rankScan E [a]) = Area2.noAdditional := by
  have h : rankScan E [a] =
      ⟨((dxFeatures a).intersection E).data.length, a,
       (dxFeatures a).intersection E,
       ((dxFeatures a).intersection E).data.length, a,
       (dxFeatures a).intersection E, JSSet.empty, JSSet.empty⟩ := rfl
  rw [h]
  refine ⟨rfl, rfl, rfl, ?_⟩
  simp [renderArea2, JSSet.has, JSSet.hasKey, JSSet.empty]

/-- **C5.** Past the initialization state, a candidate whose score strictly
exceeds the current top score demotes the previous top (name, overlap set
and count) to second place, discards the previous second, becomes the new
top, and clears the tied-with-top group (empty after the transition). -/
theorem C5_strict_improvement (E : JSSet) (st : RankState) (item : String)
    (hinit : (st.topddxcount == 0 && st.seconddxcount == 0) = false)
    (hgt : scoreOf item E > st.topddxcount) :
    (rankStep E st item).topddx = item ∧
    (rankStep E st item).topddxcount = scoreOf item E ∧
    (rankStep E st item).topSet = (dxFeatures item).intersection E ∧
    (rankStep E st item).seconddx = st.topddx ∧
    (rankStep E st item).seconddxcount = st.topddxcount ∧
    (rankStep E st item).secondSet = st.topSet ∧
    (rankStep E st item).topMultipleSet.isEmpty = true := by
  have h : rankStep E st item =
      { st with
        seconddxcount := st.topddxcount, seconddx := st.topddx,
        secondSet := st.topSet,
        topddxcount := scoreOf item E, topddx := item,
        topSet := (dxFeatures item).intersection E,
        secondMultipleSet := st.topMultipleSet.union st.secondMultipleSet.clear,
        topMultipleSet := st.topMultipleSet.clear } := by
    rw [rankStep]
    rw [if_neg (by rw [hinit]; exact Bool.false_ne_true)]
    simp only [scoreOf] at hgt
    rw [if_pos hgt]
    rfl
  rw [h]
  exact ⟨rfl, rfl, rfl, rfl, rfl, rfl, rfl⟩

/-- Witness for `C5_strict_improvement`: a state holding `L CN IV Palsy`
with count 1 is displaced by `R CN III Palsy` scoring 2 against the evidence
`{eye_pain, ptosis}`. -/
theorem C5_witness :
    ((⟨1, "L CN IV Palsy", LCNIVPalsy.intersection (JSSet.ofStrings ["eye_pain", "ptosis"]),
       1, "L CN IV Palsy", LCNIVPalsy.intersection (JSSet.ofStrings ["eye_pain", "ptosis"]),
       JSSet.empty, JSSet.empty⟩ : RankState).topddxcount == 0 &&
     (⟨1, "L CN IV Palsy", LCNIVPalsy.intersection (JSSet.ofStrings ["eye_pain", "ptosis"]),
       1, "L CN IV Palsy", LCNIVPalsy.intersection (JSSet.ofStrings ["eye_pain", "ptosis"]),
       JSSet.empty, JSSet.empty⟩ : RankState).seconddxcount == 0) = false ∧
    scoreOf "R CN III Palsy" (JSSet.ofStrings ["eye_pain", "ptosis"]) > 1 ∧
    (rankStep (JSSet.ofStrings ["eye_pain", "ptosis"])
      (⟨1, "L CN IV Palsy", LCNIVPalsy.intersection (JSSet.ofStrings ["eye_pain", "ptosis"]),
        1, "L CN IV Palsy", LCNIVPalsy.intersection (JSSet.ofStrings ["eye_pain", "ptosis"]),
        JSSet.empty, JSSet.empty⟩ : RankState) "R CN III Palsy").seconddx
      = "L CN IV Palsy" := by
  refine ⟨by decide, by decide, ?_⟩
  exact (C5_strict_improvement (JSSet.ofStrings ["eye_pain", "ptosis"]) _
    "R CN III Palsy" (by decide) (by decide)).2.2.2.1

/-- **C3.** The candidate-diagnosis set contains exactly the diagnoses whose
feature set contains some selected symptom and meets the (pre-augmentation)
localization set non-emptily; accumulation over symptoms is a union, so
qualifying for any one selected symptom suffices. -/
theorem C3_candidate_selection (L : JSSet) (symptoms : List String)
    (k : String) :
    (finalDxOf L symptoms).hasKey k = true ↔
      (k ∈ ddxNames ∧ ∃ s ∈ symptoms,
        (dxFeatures k).has (.str s) = true ∧
        ((dxFeatures k).intersection L).isEmpty = false) := by
  rw [hasKey_finalDxOf]
  constructor
  · rintro ⟨s, hs, hc⟩
    rcases (hasKey_candidatesForSymptom L s k).1 hc with ⟨hdd, hhas, hne⟩
    exact ⟨hdd, s, hs, hhas, hne⟩
  · rintro ⟨hdd, s, hs, hhas, hne⟩
    exact ⟨s, hs, (hasKey_candidatesForSymptom L s k).2 ⟨hdd, hhas, hne⟩⟩

/-- Witness for `C3_candidate_selection`: with localization `{R MLF}` and
symptom `nystagmus`, `R INO` is a candidate. -/
theorem C3_witness :
    (finalDxOf (JSSet.ofStrings ["R MLF"]) ["nystagmus"]).hasKey "R INO"
      = true :=
  (C3_candidate_selection (JSSet.ofStrings ["R MLF"]) ["nystagmus"] "R INO").2
    ⟨by decide, "nystagmus", by decide, by decide, by decide⟩

/-- **C4.** The evidence set is `localization ∪ selected symptoms`; the
ranker pipeline selects candidates against the *pre-augmentation*
localization set and only then scans them against the evidence set; each
candidate's score is the length of `features ∩ evidence`, whose property
names are pairwise distinct (a genuine cardinality). -/
theorem C4_evidence_and_scoring :
    (∀ (L : JSSet) (symptoms : List String) (k : String),
      (L.union (nosetOf symptoms)).hasKey k =
        (L.hasKey k || decide (k ∈ symptoms))) ∧
    (∀ (L : JSSet) (symptoms : List String),
      runRanker L symptoms =
        rankScan (L.union (nosetOf symptoms))
          ((finalDxOf L symptoms).data.map Prod.fst)) ∧
    (∀ (item : String) (E : JSSet),
      scoreOf item E = ((dxFeatures item).intersection E).data.length ∧
      (((dxFeatures item).intersection E).data.map Prod.fst).Nodup) := by
  refine ⟨?_, fun L symptoms => rfl, fun item E => ⟨rfl, ?_⟩⟩
  · intro L symptoms k
    apply Bool.eq_iff_iff.mpr
    rw [JSSet.hasKey_union, Bool.or_eq_true, decide_eq_true_eq,
      hasKey_nosetOf]
  · exact JSSet.nodup_fst_intersection _ _

/-- Witness for `C4_evidence_and_scoring`: evidence membership at a concrete
localization, symptom list and key. -/
theorem C4_witness :
    (horizontal_LZ.union (nosetOf ["nystagmus"])).hasKey "nystagmus" =
      (horizontal_LZ.hasKey "nystagmus" ||
        decide ("nystagmus" ∈ (["nystagmus"] : List String))) ∧
    runRanker horizontal_LZ ["nystagmus"] =
      rankScan (horizontal_LZ.union (nosetOf ["nystagmus"]))
        ((finalDxOf horizontal_LZ ["nystagmus"]).data.map Prod.fst) :=
  ⟨C4_evidence_and_scoring.1 horizontal_LZ ["nystagmus"] "nystagmus",
   C4_evidence_and_scoring.2.1 horizontal_LZ ["nystagmus"]⟩

theorem nodup_fst_finalDxOf (L : JSSet) (symptoms : List String) :
    ((finalDxOf L symptoms).data.map Prod.fst).Nodup := by
  rw [finalDxOf]
  refine JSSet.nodup_fst_foldl _ ?_ symptoms JSSet.empty (by simp [JSSet.empty])
  intro a s h
  dsimp only
  by_cases hc : (a.equals (candidatesForSymptom L s) == false) = true
  · rw [if_pos hc]
    exact JSSet.nodup_fst_union _ _
  · rw [if_neg hc]
    exact h

theorem scoreOf_pos_of_meets_localization (L noset : JSSet) (k : String)
    (hne : ((dxFeatures k).intersection L).isEmpty = false) :
    0 < scoreOf k (L.union noset) := by
  rcases (JSSet.isEmpty_eq_false_iff _).1 hne with ⟨k0, hk0⟩
  rcases (JSSet.hasKey_intersection _ _ _).1 hk0 with ⟨hf, hL⟩
  have hE : (L.union noset).hasKey k0 = true :=
    (JSSet.hasKey_union _ _ _).2 (Or.inl hL)
  have hI : ((dxFeatures k).intersection (L.union noset)).hasKey k0 = true :=
    (JSSet.hasKey_intersection _ _ _).2 ⟨hf, hE⟩
  show 0 < ((dxFeatures k).intersection (L.union noset)).data.length
  rcases hdata : ((dxFeatures k).intersection (L.union noset)).data with _ | ⟨p, rest⟩
  · rw [JSSet.hasKey, hdata] at hI
    cases hI
  · simp

/-- The initialization branch of the ranking scan: the first candidate
becomes both top and second. -/
theorem rankStep_init (E : JSSet) (item : String) :
    rankStep E initRank item =
      ⟨scoreOf item E, item, (dxFeatures item).intersection E,
       scoreOf item E, item, (dxFeatures item).intersection E,
       JSSet.empty, JSSet.empty⟩ := rfl

/-- The equal-to-top branch of the ranking scan: past initialization, a
candidate whose score equals the top score is added, together with the
current top, to the tied-for-top group. -/
theorem rankStep_tie (E : JSSet) (st : RankState) (item : String)
    (hinit : (st.topddxcount == 0 && st.seconddxcount == 0) = false)
    (heq : scoreOf item E = st.topddxcount) :
    rankStep E st item =
      { st with topMultipleSet :=
          (st.topMultipleSet.addVal (.str st.topddx)).addVal (.str item) } := by
  rw [rankStep]
  rw [if_neg (by rw [hinit]; exact Bool.false_ne_true)]
  simp only [scoreOf] at heq
  rw [if_neg (by rw [heq]; omega), if_pos (by rw [heq]; simp)]

/-- The dedup overwrite of `#area2`: whenever the tied-for-top group
contains the second-place name, or top and second coincide, the rendering is
"No additional differentials". -/
theorem renderArea2_noAdditional_of (st : RankState)
    (h : (st.topMultipleSet.has (.str st.seconddx) || st.topddx == st.seconddx)
      = true) :
    renderArea2 st = Area2.noAdditional := by
  rw [renderArea2, if_pos h]

/-- **C2.** If exactly two candidate diagnoses exist and their overlap
counts with the evidence set are equal, both names land in the tied-for-top
group and the second-place output collapses to "no additional
differentials"; and in general, whenever the tied-for-top group contains the
second-place name or top and second coincide, the second-place output is
collapsed to "no additional differentials". -/
theorem C2_tie_classification_and_dedup (L : JSSet) (symptoms : List String)
    (a b : String)
    (hcands : (finalDxOf L symptoms).data.map Prod.fst = [a, b])
    (hsc : scoreOf a (L.union (nosetOf symptoms))
         = scoreOf b (L.union (nosetOf symptoms))) :
    ((runRanker L symptoms).topMultipleSet.has (.str a) = true ∧
     (runRanker L symptoms).topMultipleSet.has (.str b) = true ∧
     renderArea2 (runRanker L symptoms) = Area2.noAdditional) ∧
    (∀ st : RankState,
      (st.topMultipleSet.has (.str st.seconddx) || st.topddx == st.seconddx)
        = true →
      renderArea2 st = Area2.noAdditional) := by
  constructor
  · have hmem : (finalDxOf L symptoms).hasKey a = true := by
      rw [JSSet.hasKey_mem_map_fst, hcands]
      simp
    have hpos : 0 < scoreOf a (L.union (nosetOf symptoms)) := by
      rcases (hasKey_finalDxOf L symptoms a).1 hmem with ⟨s, _, hc⟩
      rcases (hasKey_candidatesForSymptom L s a).1 hc with ⟨_, _, hne⟩
      exact scoreOf_pos_of_meets_localization L (nosetOf symptoms) a hne
    have hrun : runRanker L symptoms =
        rankScan (L.union (nosetOf symptoms)) [a, b] := by
      show rankScan (L.union (nosetOf symptoms))
        ((finalDxOf L symptoms).data.map Prod.fst) = _
      rw [hcands]
    have hstep1 := rankStep_init (L.union (nosetOf symptoms)) a
    have hstep2 := rankStep_tie (L.union (nosetOf symptoms))
      (⟨scoreOf a (L.union (nosetOf symptoms)), a,
        (dxFeatures a).intersection (L.union (nosetOf symptoms)),
        scoreOf a (L.union (nosetOf symptoms)), a,
        (dxFeatures a).intersection (L.union (nosetOf symptoms)),
        JSSet.empty, JSSet.empty⟩ : RankState) b
      (by simp [Nat.pos_iff_ne_zero.mp hpos])
      (by exact hsc.symm)
    have hscan : rankScan (L.union (nosetOf symptoms)) [a, b] =
        ⟨scoreOf a (L.union (nosetOf symptoms)), a,
         (dxFeatures a).intersection (L.union (nosetOf symptoms)),
         scoreOf a (L.union (nosetOf symptoms)), a,
         (dxFeatures a).intersection (L.union (nosetOf symptoms)),
         JSSet.empty,
         (JSSet.empty.addVal (.str a)).addVal (.str b)⟩ := by
      show rankStep (L.union (nosetOf symptoms))
        (rankStep (L.union (nosetOf symptoms)) initRank a) b = _
      rw [hstep1, hstep2]
    rw [hrun, hscan]
    have hhasa :
        (((JSSet.empty.addVal (.str a)).addVal (.str b))).hasKey a = true :=
      (JSSet.hasKey_addVal _ _ _).2
        (Or.inr ((JSSet.hasKey_addVal _ _ _).2 (Or.inl rfl)))
    have hhasb :
        (((JSSet.empty.addVal (.str a)).addVal (.str b))).hasKey b = true :=
      (JSSet.hasKey_addVal _ _ _).2 (Or.inl rfl)
    refine ⟨hhasa, hhasb, ?_⟩
    apply renderArea2_noAdditional_of
    show (((JSSet.empty.addVal (.str a)).addVal (.str b)).hasKey a
      || (a == a)) = true
    rw [hhasa]
    rfl
  · intro st hcond
    exact renderArea2_noAdditional_of st hcond

/-- Witness for `C2_tie_classification_and_dedup`: localization `{R MLF}`
and the single symptom `nystagmus` leave exactly the candidates `R INO` and
the midbrain syndrome, tied at overlap 2, and the second-place output reads
"no additional differentials". -/
theorem C2_witness :
    (finalDxOf (JSSet.ofStrings ["R MLF"]) ["nystagmus"]).data.map Prod.fst
      = ["R INO", "Midbrain at the Level of the Superior Cerebellar Peduncle"] ∧
    renderArea2 (runRanker (JSSet.ofStrings ["R MLF"]) ["nystagmus"])
      = Area2.noAdditional := by
  have h := C2_tie_classification_and_dedup (JSSet.ofStrings ["R MLF"])
    ["nystagmus"] "R INO"
    "Midbrain at the Level of the Superior Cerebellar Peduncle"
    (by decide) (by decide)
  exact ⟨by decide, h.1.2.2⟩

/-! ## Heap preservation (registry immutability) -/

theorem kbPreserved_kbHeap : kbPreserved kbHeap :=
  ⟨le_refl _, fun _ _ => rfl⟩

theorem kbPreserved_alloc (h : Heap) (d : List (String × JSVal))
    (hp : kbPreserved h) :
    kbPreserved (h.alloc d).2 ∧ kbLen ≤ (h.alloc d).1 := by
  refine ⟨⟨?_, ?_⟩, hp.1⟩
  · show kbLen ≤ (h.objs ++ [d]).length
    rw [List.length_append]
    exact le_trans hp.1 (Nat.le_add_right _ _)
  · intro i hi
    show (h.objs ++ [d])[i]? = _
    rw [List.getElem?_append_left (lt_of_lt_of_le hi hp.1)]
    exact hp.2 i hi

theorem kbPreserved_write (h : Heap) (r : Nat) (d : List (String × JSVal))
    (hr : kbLen ≤ r) (hp : kbPreserved h) :
    kbPreserved (h.write r d) := by
  refine ⟨?_, ?_⟩
  · show kbLen ≤ (h.objs.set r d).length
    rw [List.length_set]
    exact hp.1
  · intro i hi
    show (h.objs.set r d)[i]? = _
    rw [List.getElem?_set_ne (by omega : r ≠ i)]
    exact hp.2 i hi

theorem kbPreserved_unionAt (h : Heap) (r1 r2 : Nat) (hp : kbPreserved h) :
    kbPreserved (h.unionAt r1 r2).2 ∧ kbLen ≤ (h.unionAt r1 r2).1 :=
  kbPreserved_alloc h _ hp

theorem kbPreserved_interAt (h : Heap) (r1 r2 : Nat) (hp : kbPreserved h) :
    kbPreserved (h.interAt r1 r2).2 ∧ kbLen ≤ (h.interAt r1 r2).1 :=
  kbPreserved_alloc h _ hp

theorem kbPreserved_diffAt (h : Heap) (r1 r2 : Nat) (hp : kbPreserved h) :
    kbPreserved (h.diffAt r1 r2).2 ∧ kbLen ≤ (h.diffAt r1 r2).1 :=
  kbPreserved_alloc h _ hp

theorem kbPreserved_addValAt (h : Heap) (r : Nat) (v : JSVal)
    (hr : kbLen ≤ r) (hp : kbPreserved h) :
    kbPreserved (h.addValAt r v) :=
  kbPreserved_write h r _ hr hp

theorem kbPreserved_clearAt (h : Heap) (r : Nat)
    (hr : kbLen ≤ r) (hp : kbPreserved h) :
    kbPreserved (h.clearAt r) :=
  kbPreserved_write h r _ hr hp

theorem foldl_invariant {α β : Type} (P : α → Prop) (f : α → β → α)
    (hf : ∀ a b, P a → P (f a b)) :
    ∀ (l : List β) (a : α), P a → P (l.foldl f a) := by
  intro l
  induction l with
  | nil => intro a ha; exact ha
  | cons b rest ih => intro a ha; exact ih (f a b) (hf a b ha)

/-- The resolver fold only reads the zone objects: every step allocates. -/
theorem resolverFold_pres (zoneIds : List String) (acc : Nat × Heap)
    (hp : kbPreserved acc.2) :
    kbPreserved ((zoneIds.foldl hZoneStep acc)).2 := by
  refine foldl_invariant (fun acc => kbPreserved acc.2) _ ?_ zoneIds acc hp
  rintro ⟨r, h⟩ zid hph
  unfold hZoneStep
  dsimp only
  by_cases hc : JSSet.isEmpty ⟨h.read r⟩ = true
  · rw [if_pos hc]
    exact (kbPreserved_unionAt h r (zoneRef zid) hph).1
  · rw [if_neg hc]
    exact (kbPreserved_interAt h r (zoneRef zid) hph).1

/-- The per-symptom inner loop only reads the diagnosis objects: it
allocates intersections and writes only the fresh `curRunningSet`. -/
theorem ddxFold_pres (finalSetR : Nat) (cur_symptom : String)
    (names : List String)
    (acc : Nat × Heap) (hp : kbPreserved acc.2) (hr : kbLen ≤ acc.1) :
    kbPreserved ((names.foldl (hDdxStep finalSetR cur_symptom) acc)).2 ∧
    kbLen ≤ ((names.foldl (hDdxStep finalSetR cur_symptom) acc)).1 := by
  refine foldl_invariant
    (fun acc => kbPreserved acc.2 ∧ kbLen ≤ acc.1) _ ?_ names acc ⟨hp, hr⟩
  rintro ⟨curR, h⟩ name ⟨hph, hcr⟩
  unfold hDdxStep
  dsimp only
  have hal := (kbPreserved_interAt h (dxRef name) finalSetR hph).1
  split
  · exact ⟨kbPreserved_addValAt _ curR _ hcr hal, hcr⟩
  · exact ⟨hal, hcr⟩

/-- One symptom-loop iteration writes only `noset` and the fresh
`curRunningSet`, and allocates the rest: the knowledge base survives. -/
theorem hSymptomStep_pres (finalSetR nosetR : Nat) (hn : kbLen ≤ nosetR)
    (acc : Nat × Heap) (s : String) (hp : kbPreserved acc.2) :
    kbPreserved ((hSymptomStep finalSetR nosetR acc s)).2 := by
  obtain ⟨finalDxR, h⟩ := acc
  have h1p : kbPreserved (h.addValAt nosetR (.str s)) :=
    kbPreserved_addValAt h nosetR _ hn hp
  have h2p := kbPreserved_alloc (h.addValAt nosetR (.str s)) [] h1p
  have hfold := ddxFold_pres finalSetR s ddxNames
    ((h.addValAt nosetR (.str s)).alloc []) h2p.1 h2p.2
  unfold hSymptomStep
  dsimp only
  split
  · exact (kbPreserved_unionAt _ finalDxR _
      ((kbPreserved_diffAt _ _ finalDxR hfold.1).1)).1
  · dsimp only
    exact hfold.1

/-- One ranking-scan iteration allocates the intersection and writes only
the tie-group objects (whose addresses stay above the knowledge base). -/
theorem hRankStep_pres (finalSetR : Nat) (acc : HRankState × Heap)
    (item : String) (hp : kbPreserved acc.2)
    (hs : kbLen ≤ acc.1.secondMultipleR) (ht : kbLen ≤ acc.1.topMultipleR) :
    kbPreserved (hRankStep finalSetR acc item).2 ∧
    kbLen ≤ (hRankStep finalSetR acc item).1.secondMultipleR ∧
    kbLen ≤ (hRankStep finalSetR acc item).1.topMultipleR := by
  obtain ⟨st, h⟩ := acc
  have hip := (kbPreserved_interAt h (dxRef item) finalSetR hp).1
  have hclear1 := kbPreserved_clearAt
    (h.interAt (dxRef item) finalSetR).2 st.secondMultipleR hs hip
  have hun := kbPreserved_unionAt
    (((h.interAt (dxRef item) finalSetR).2).clearAt st.secondMultipleR)
    st.topMultipleR st.secondMultipleR hclear1
  unfold hRankStep
  dsimp only
  split
  · exact ⟨hip, hs, ht⟩
  · split
    · exact ⟨kbPreserved_clearAt _ st.topMultipleR ht hun.1, hun.2, ht⟩
    · split
      · exact ⟨kbPreserved_addValAt _ st.topMultipleR _ ht
          (kbPreserved_addValAt _ st.topMultipleR _ ht hip), hs, ht⟩
      · split
        · exact ⟨hclear1, hs, ht⟩
        · split
          · exact ⟨kbPreserved_addValAt _ st.secondMultipleR _ hs
              (kbPreserved_addValAt _ st.secondMultipleR _ hs hip), hs, ht⟩
          · exact ⟨hip, hs, ht⟩

/-- Every heap mutation of the click handler targets an object allocated
after the knowledge base, so the knowledge-base prefix of the heap is
untouched by a full recompute. -/
theorem runHandlerHeap_pres (zoneIds symptomIds : List String) :
    kbPreserved (runHandlerHeap zoneIds symptomIds) := by
  have p5 := (kbPreserved_alloc _ []
    ((kbPreserved_alloc _ []
      ((kbPreserved_alloc _ []
        ((kbPreserved_alloc _ []
          ((kbPreserved_alloc kbHeap [] kbPreserved_kbHeap).1)).1)).1)).1)).1
  unfold runHandlerHeap
  dsimp only
  split
  · exact resolverFold_pres zoneIds _ p5
  · split
    · exact (kbPreserved_alloc _ [] (resolverFold_pres zoneIds
        ((kbHeap.alloc []).1,
         (((((kbHeap.alloc []).2.alloc []).2.alloc []).2.alloc []).2.alloc []).2)
        p5)).1
    · have pz := resolverFold_pres zoneIds
        ((kbHeap.alloc []).1,
         (((((kbHeap.alloc []).2.alloc []).2.alloc []).2.alloc []).2.alloc []).2)
        p5
      have pn := kbPreserved_alloc _ [] pz
      have psym := foldl_invariant (fun acc : Nat × Heap => kbPreserved acc.2)
        (hSymptomStep
          (zoneIds.foldl hZoneStep
            ((kbHeap.alloc []).1,
             (((((kbHeap.alloc []).2.alloc []).2.alloc []).2.alloc []).2.alloc []).2)).1
          ((zoneIds.foldl hZoneStep
            ((kbHeap.alloc []).1,
             (((((kbHeap.alloc []).2.alloc []).2.alloc []).2.alloc []).2.alloc []).2)).2.alloc []).1)
        (fun acc s hp => hSymptomStep_pres _ _ pn.2 acc s hp)
        symptomIds
        ((((kbHeap.alloc []).2.alloc []).2.alloc []).1,
         ((zoneIds.foldl hZoneStep
            ((kbHeap.alloc []).1,
             (((((kbHeap.alloc []).2.alloc []).2.alloc []).2.alloc []).2.alloc []).2)).2.alloc []).2)
        (by dsimp only; exact pn.1)
      have p8 := kbPreserved_alloc _ [] psym
      have p9 := kbPreserved_alloc _ [] p8.1
      have p10 := kbPreserved_alloc _ [] p9.1
      have p11 := kbPreserved_alloc _ [] p10.1
      have pun := kbPreserved_unionAt _
        (zoneIds.foldl hZoneStep
          ((kbHeap.alloc []).1,
           (((((kbHeap.alloc []).2.alloc []).2.alloc []).2.alloc []).2.alloc []).2)).1
        ((zoneIds.foldl hZoneStep
          ((kbHeap.alloc []).1,
           (((((kbHeap.alloc []).2.alloc []).2.alloc []).2.alloc []).2.alloc []).2)).2.alloc []).1
        p11.1
      exact (foldl_invariant
        (fun acc : HRankState × Heap => kbPreserved acc.2 ∧
          kbLen ≤ acc.1.secondMultipleR ∧ kbLen ≤ acc.1.topMultipleR) _
        (fun acc item hp => hRankStep_pres _ acc item hp.1 hp.2.1 hp.2.2)
        _ _
        ⟨by dsimp only; exact pun.1,
         by dsimp only; exact p10.2,
         by dsimp only; exact p11.2⟩).1

/-- **C8.** After any single checkbox-triggered recompute, every
knowledge-base object (each named zone set and diagnosis feature set) is
unchanged on the heap: the handler only reads them and builds fresh result
sets, never mutating a shared registry object in place. -/
theorem C8_registry_immutable (zoneIds symptomIds : List String) (i : Nat)
    (hi : i < kbLen) :
    (runHandlerHeap zoneIds symptomIds).objs[i]? = kbHeap.objs[i]? :=
  (runHandlerHeap_pres zoneIds symptomIds).2 i hi

/-- Witness for `C8_registry_immutable`: the `all` object (address 0) is
intact after a full recompute with a zone and a symptom selected. -/
theorem C8_witness :
    0 < kbLen ∧
    (runHandlerHeap ["horizontal"] ["nystagmus"]).objs[0]? = kbHeap.objs[0]? :=
  ⟨by decide, C8_registry_immutable ["horizontal"] ["nystagmus"] 0 (by decide)⟩
